import Mathlib

/-
Verification of the heap-file record manager (src/heapfile.C) against its
natural-language specification.  The buffer pool is modelled as the single
store of page images: a pinned pointer is represented by the page number
plus a pinned flag, and writes through a pinned pointer update the store
directly.  The slotted Page class (page.C) is not part of src/, so its
operations are modelled from the spec, section 6: firstRecord and nextRecord
scan the slot directory in index order and yield NORECORDS / ENDOFPAGE at
the edges; the code of heapfile.C relies on nextRecord applied to NULLRID
(slot number -1) yielding the first occupied slot, which is what a scan
of the slot directory starting after slot -1 gives.
-/

namespace HeapDB

/-- Status codes returned by the layer (error.h / heapfile.h). -/
inductive Status where
  | OK
  | FILEEXISTS
  | BADPAGENO
  | BADSCANPARM
  | NORECORDS
  | ENDOFPAGE
  | FILEEOF
  | NOSPACE
  | INVALIDSLOT
  | UNIXERR
  deriving DecidableEq, Repr

/-- Record identifier: a (pageNo, slotNo) pair. -/
structure RID where
  pageNo : Int
  slotNo : Int
  deriving DecidableEq, Repr

/-- The distinguished null record identifier. -/
def NULLRID : RID := ⟨-1, -1⟩

/-- A record: a byte buffer.  rec.length of the source is data.length here.
Bytes are naturals; decoding reduces them mod 256. -/
structure Record where
  data : List Nat
  deriving DecidableEq, Repr

inductive Datatype where
  | STRING
  | INTEGER
  | FLOAT
  deriving DecidableEq, Repr

inductive Operator where
  | LT
  | LTE
  | EQ
  | GTE
  | GT
  | NE
  deriving DecidableEq, Repr

/-- The five-tuple a filtered scan carries (offset, length, type, value
bytes, comparison operator).  In the source these are separate fields of
HeapFileScan set by startScan; the null filter pointer is modelled by
wrapping the whole tuple in Option at use sites. -/
structure Filter where
  offset : Int
  length : Int
  type : Datatype
  value : List Nat
  op : Operator
  deriving DecidableEq, Repr

/-- Little-endian decode of (up to) four bytes into an unsigned 32-bit
value, as memcpy into a 4-byte local does on a little-endian machine.
startScan forces length = 4 for INTEGER and FLOAT filters, so exactly
four bytes are supplied on every path the scan can reach. -/
def decodeU32 (bs : List Nat) : Nat :=
  match bs with
  | [b0, b1, b2, b3] => b0 % 256 + 256 * (b1 % 256) + 65536 * (b2 % 256) + 16777216 * (b3 % 256)
  | _ => 0

/-- Reinterpret an unsigned 32-bit value as a signed int, as the int local
of matchRec holds it. -/
def toI32 (u : Nat) : Int :=
  if u < 2147483648 then (u : Int) else (u : Int) - 4294967296

/-- Signed 32-bit decode of four little-endian bytes. -/
def decodeI32 (bs : List Nat) : Int := toI32 (decodeU32 bs)

/-- Two-complement wrap of an integer into the signed 32-bit range: the
value the int subtraction iattr - ifltr of matchRec produces on a 32-bit
int (signed overflow modelled as wrap-around). -/
def wrap32 (z : Int) : Int := (z + 2147483648) % 4294967296 - 2147483648

/-- The value held by a 32-bit IEEE float local: a finite dyadic value
m * 2^e, a signed infinity, or NaN. -/
inductive F32 where
  | fin (m : Int) (e : Int)
  | inf (pos : Bool)
  | nan
  deriving DecidableEq, Repr

/-- Decode an unsigned 32-bit pattern as an IEEE-754 single.  A normal
number with biased exponent e and mantissa m is (2^23 + m) * 2^(e - 150);
a subnormal is m * 2^(-149). -/
def decodeF32u (u : Nat) : F32 :=
  let s := u / 2147483648
  let e := (u / 8388608) % 256
  let m := u % 8388608
  if e = 255 then
    if m = 0 then F32.inf (s = 0) else F32.nan
  else
    let mag : Int := if e = 0 then (m : Int) else (8388608 + m : Int)
    let ex : Int := if e = 0 then -149 else (e : Int) - 150
    F32.fin (if s = 0 then mag else -mag) ex

/-- Decode four little-endian bytes as an IEEE-754 single. -/
def decodeF32 (bs : List Nat) : F32 := decodeF32u (decodeU32 bs)

/-- The exact rational value of a finite single m * 2^e. -/
def qval (m e : Int) : ℚ := (m : ℚ) * (2 : ℚ) ^ e

/-- The exact difference m1 * 2^e1 - m2 * 2^e2, brought to the common
exponent min e1 e2: the result z satisfies
qval m1 e1 - qval m2 e2 = z * 2^(min e1 e2), so comparisons of the
difference against zero are comparisons of z against zero. -/
def dsub (m1 e1 m2 e2 : Int) : Int :=
  m1 * 2 ^ (e1 - min e1 e2).toNat - m2 * 2 ^ (e2 - min e1 e2).toNat

/-- The float value named diff in matchRec, as far as comparisons against
zero observe it.  For two finite singles the hardware computes the
rounded difference; rounding to nearest preserves the sign and, by
gradual underflow, is zero exactly when the exact difference is zero,
and overflow to an infinity also keeps the sign, so the exact difference
is comparison-faithful; it is carried as the integer dsub gives (the
sign carrier of the exact difference).  Likewise the conversion of the
int or strncmp result to float preserves sign and zero, so ordinary
values are carried as exact integers. -/
inductive DiffV where
  | val (z : Int)
  | pinf
  | ninf
  | nan
  deriving DecidableEq, Repr

/-- IEEE subtraction of two singles, reduced to what comparisons of the
difference against zero observe. -/
def fsub : F32 → F32 → DiffV
  | F32.nan, _ => DiffV.nan
  | _, F32.nan => DiffV.nan
  | F32.inf true, F32.inf true => DiffV.nan
  | F32.inf false, F32.inf false => DiffV.nan
  | F32.inf true, _ => DiffV.pinf
  | F32.inf false, _ => DiffV.ninf
  | F32.fin _ _, F32.inf true => DiffV.ninf
  | F32.fin _ _, F32.inf false => DiffV.pinf
  | F32.fin m1 e1, F32.fin m2 e2 => DiffV.val (dsub m1 e1 m2 e2)

/-- Apply a comparison operator to an integer difference carrier against
zero. -/
def opApplyZ (op : Operator) (z : Int) : Bool :=
  match op with
  | Operator.LT => decide (z < 0)
  | Operator.LTE => decide (z ≤ 0)
  | Operator.EQ => decide (z = 0)
  | Operator.GTE => decide (0 ≤ z)
  | Operator.GT => decide (0 < z)
  | Operator.NE => decide (¬ z = 0)

/-- Apply a comparison operator to a rational difference against zero:
the comparison semantics the spec states, over exact real values. -/
def opApplyQ (op : Operator) (q : ℚ) : Bool :=
  match op with
  | Operator.LT => decide (q < 0)
  | Operator.LTE => decide (q ≤ 0)
  | Operator.EQ => decide (q = 0)
  | Operator.GTE => decide (0 ≤ q)
  | Operator.GT => decide (0 < q)
  | Operator.NE => decide (¬ q = 0)

/-- The switch(op) of matchRec on the float diff.  Every ordered
comparison with NaN is false, but NaN != 0.0 holds in C, so NE on a NaN
diff is true; comparisons with infinities follow their sign. -/
def opApply (op : Operator) (d : DiffV) : Bool :=
  match d with
  | DiffV.val z => opApplyZ op z
  | DiffV.nan =>
    match op with
    | Operator.NE => true
    | _ => false
  | DiffV.pinf =>
    match op with
    | Operator.GTE => true
    | Operator.GT => true
    | Operator.NE => true
    | _ => false
  | DiffV.ninf =>
    match op with
    | Operator.LT => true
    | Operator.LTE => true
    | Operator.NE => true
    | _ => false

/-- strncmp over byte lists: compares up to n bytes, stopping at the first
difference or at a NUL byte; bytes missing from the list are NUL. -/
def strncmpM : List Nat → List Nat → Nat → Int
  | _, _, 0 => 0
  | a, b, Nat.succ n =>
    let x := (a.headD 0) % 256
    let y := (b.headD 0) % 256
    if x ≠ y then (x : Int) - (y : Int)
    else if x = 0 then 0
    else strncmpM a.tail b.tail n

/-- The attribute bytes matchRec copies out of the record: length bytes
starting at offset. -/
def attrBytes (f : Filter) (rec : Record) : List Nat :=
  (rec.data.drop f.offset.toNat).take f.length.toNat

/-- The filter-value bytes matchRec copies out of the filter. -/
def valBytes (f : Filter) : List Nat := f.value.take f.length.toNat

/-- HeapFileScan::matchRec (heapfile.C lines 409-461).  A null filter
matches everything.  The bounds guard at line 416 computes
offset + length - 1 in 32-bit int arithmetic, so it wraps (wrap32)
before being compared with rec.length; when offset + length - 1
overflows int, the wrapped value is negative and the guard does not
fire, and the code goes on to read rec.data + offset, which in C is an
out-of-bounds read (the model clips that read to the bytes the record
has).  rec.length itself is a genuine record length, bounded by the
page size, so it is left unwrapped.  When the guard does not fire,
diff is computed per type (int subtraction with 32-bit wrap for
INTEGER, IEEE float subtraction for FLOAT, strncmp for STRING; the
conversion of an int or strncmp result to float preserves sign and
zero, so those cases are compared as exact values) and op is applied to
diff against zero. -/
def matchRec (filter : Option Filter) (rec : Record) : Bool :=
  match filter with
  | none => true
  | some f =>
    if (rec.data.length : Int) ≤ wrap32 (f.offset + f.length - 1) then false
    else
      let d : DiffV :=
        match f.type with
        | Datatype.INTEGER =>
          DiffV.val (wrap32 (decodeI32 (attrBytes f rec) - decodeI32 (valBytes f)))
        | Datatype.FLOAT =>
          fsub (decodeF32 (attrBytes f rec)) (decodeF32 (valBytes f))
        | Datatype.STRING =>
          DiffV.val (strncmpM (rec.data.drop f.offset.toNat) f.value f.length.toNat)
      opApply f.op d

/-- The exact integer difference of the decoded attribute and filter
values, before any 32-bit wrap. -/
def intDiff (f : Filter) (rec : Record) : Int :=
  decodeI32 (attrBytes f rec) - decodeI32 (valBytes f)

/-- Modelled from the spec: the predicate the spec ascribes to matchRec
for INTEGER and FLOAT filters: diff = attr - filterValue computed as an
exact real (rational) number, with op applied to diff against zero.  It
is undefined (none) outside that domain (STRING filters, non-finite
float operands). -/
def matchRecSpec (f : Filter) (rec : Record) : Option Bool :=
  match f.type with
  | Datatype.INTEGER =>
    some (opApplyQ f.op ((decodeI32 (attrBytes f rec) : ℚ) - (decodeI32 (valBytes f) : ℚ)))
  | Datatype.FLOAT =>
    match decodeF32 (attrBytes f rec), decodeF32 (valBytes f) with
    | F32.fin m1 e1, F32.fin m2 e2 => some (opApplyQ f.op (qval m1 e1 - qval m2 e2))
    | _, _ => none
  | Datatype.STRING => none

/-! ## The slotted data page and the file store -/

/-- A data page: its own page number (set by init), the slot directory
(none marks a freed slot), the forward link to the next data page (-1
terminates), and the free space left for inserts.  Modelled from the
spec, section 6 (the Page class of page.C is not part of src/). -/
structure DataPage where
  pageNo : Int
  slots : List (Option Record)
  nextPage : Int
  free : Nat
  deriving DecidableEq, Repr

/-- Free space of a freshly initialised page. -/
def pageCap : Nat := 100

/-- Page::init for a freshly allocated page: sets its own number, an empty
slot directory and a -1 next pointer. -/
def initPage (n : Int) : DataPage := ⟨n, [], -1, pageCap⟩

/-- The slot-directory scan shared by firstRecord and nextRecord: the first
occupied slot whose index (counting from accumulator i) is above the
threshold k, together with its record.  firstRecord is the instance
k = -1; nextRecord curRid is the instance k = curRid.slotNo. -/
def nextOcc : List (Option Record) → Int → Nat → Option (Nat × Record)
  | [], _, _ => none
  | none :: rest, k, i => nextOcc rest k (i + 1)
  | some r :: rest, k, i =>
    if k < (i : Int) then some (i, r) else nextOcc rest k (i + 1)

/-- Page::getRecord: the record in an occupied slot, INVALID_SLOT (none)
otherwise. -/
def pageGetRecord (p : DataPage) (rid : RID) : Option Record :=
  if rid.slotNo < 0 then none
  else
    match p.slots.get? rid.slotNo.toNat with
    | some (some r) => some r
    | _ => none

/-- Page::insertRecord: appends the record to the slot directory when its
bytes fit in the free space, NOSPACE otherwise. -/
def pageInsertRecord (p : DataPage) (rec : Record) : Status × DataPage × RID :=
  if rec.data.length ≤ p.free then
    (Status.OK,
     { p with slots := p.slots ++ [some rec], free := p.free - rec.data.length },
     ⟨p.pageNo, (p.slots.length : Int)⟩)
  else (Status.NOSPACE, p, NULLRID)

/-- Page::deleteRecord: frees an occupied slot, INVALID_SLOT otherwise. -/
def pageDeleteRecord (p : DataPage) (rid : RID) : Status × DataPage :=
  if rid.slotNo < 0 then (Status.INVALIDSLOT, p)
  else
    match p.slots.get? rid.slotNo.toNat with
    | some (some _) =>
      (Status.OK, { p with slots := p.slots.set rid.slotNo.toNat none })
    | _ => (Status.INVALIDSLOT, p)

/-- The header page payload (FileHdrPage).  The file-name field plays no
part in any claim and is omitted. -/
structure FileHdr where
  firstPage : Int
  lastPage : Int
  pageCnt : Int
  recCnt : Int
  deriving DecidableEq, Repr

/-- The state of an open heap file as seen through the buffer pool: the
data-page images keyed by page number, the pinned header payload, and the
number the next allocPage call returns. -/
structure FileState where
  pages : List (Int × DataPage)
  hdr : FileHdr
  nextAlloc : Int
  deriving DecidableEq, Repr

/-- bufMgr readPage: the image of a page, none when the page does not
exist (the buffer call fails). -/
def lookupPage : List (Int × DataPage) → Int → Option DataPage
  | [], _ => none
  | (m, p) :: rest, n => if m = n then some p else lookupPage rest n

/-- Write through a pinned pointer: replace the image of page n. -/
def updatePage : List (Int × DataPage) → Int → DataPage → List (Int × DataPage)
  | [], _, _ => []
  | (m, p) :: rest, n, q => if m = n then (m, q) :: rest else (m, p) :: updatePage rest n q

/-- The cursor state a HeapFile handle / HeapFileScan / InsertFileScan
carries on top of the file: the current pinned data page (curPage != NULL
is curPinned), the dirty flags, the current record, the scan filter and
the mark taken by markScan. -/
structure HFS where
  fs : FileState
  curPinned : Bool
  curPageNo : Int
  curDirtyFlag : Bool
  hdrDirtyFlag : Bool
  curRec : RID
  filter : Option Filter
  markedPageNo : Int
  markedRec : RID
  deriving DecidableEq, Repr

/-- The HeapFile constructor (heapfile.C lines 67-122) on an already
existing file: pins the header, and pins the first data page as the
current page when the chain is not empty; curRec starts as NULLRID.
The filt argument is the filter a subsequent successful startScan
installs (startScan only writes the filter fields); none is the
unfiltered scan and also the state before any startScan.  The function
yields none on a constructor failure (first page unreadable), after
which the handle owns no pins. -/
def openScan (fs : FileState) (filt : Option Filter) : Option HFS :=
  if fs.hdr.firstPage = -1 then
    some ⟨fs, false, -1, false, false, NULLRID, filt, 0, NULLRID⟩
  else
    match lookupPage fs.pages fs.hdr.firstPage with
    | none => none
    | some _ => some ⟨fs, true, fs.hdr.firstPage, false, false, NULLRID, filt, 0, NULLRID⟩

/-! ## The scan operations -/

/-- The filter step of scanNext (heapfile.C lines 358-374): p is the
curPage pointer (the page pinned as current at this point), and retry is
the tail call `return scanNext(outRid)` taken on a filter mismatch.
With no filter the current record is returned; otherwise the record is
fetched from the page (errors propagated verbatim) and the predicate
applied. -/
def scanCheck (retry : HFS → Option (Status × RID × HFS)) (p : DataPage) (s : HFS) :
    Option (Status × RID × HFS) :=
  match s.filter with
  | none => some (Status.OK, s.curRec, s)
  | some f =>
    match pageGetRecord p s.curRec with
    | none => some (Status.INVALIDSLOT, NULLRID, s)
    | some r =>
      if matchRec (some f) r then some (Status.OK, s.curRec, s)
      else retry s

/-- HeapFileScan::scanNext (heapfile.C lines 293-375), with explicit fuel
for the tail recursion on an empty page or a filter mismatch (none is
fuel exhaustion, not a behaviour of the code).  The transcription keeps
the shape of the source: when no page is pinned and the file is not
empty, the first page is pinned and curRec is primed with its first
record, and control then falls through to the nextRecord step (line 323)
like the source does; when the end of a page is reached the next page is
pinned and its first record becomes curRec directly.  outRid is
unassigned on error paths in the source and is returned as NULLRID
here. -/
def scanNext : Nat → HFS → Option (Status × RID × HFS)
  | 0, _ => none
  | Nat.succ fuel, s0 =>
    -- the nextRecord step and the page hop, lines 322-356
    let advance : HFS → Option (Status × RID × HFS) := fun s =>
      match lookupPage s.fs.pages s.curPageNo with
      | none => some (Status.UNIXERR, NULLRID, s)
      | some p =>
        match nextOcc p.slots s.curRec.slotNo 0 with
        | some jr => scanCheck (scanNext fuel) p { s with curRec := ⟨p.pageNo, (jr.1 : Int)⟩ }
        | none =>
          -- ENDOFPAGE: follow the chain
          if p.nextPage = -1 then some (Status.FILEEOF, NULLRID, s)
          else
            match lookupPage s.fs.pages p.nextPage with
            | none => some (Status.UNIXERR, NULLRID, { s with curPinned := false })
            | some p2 =>
              let s2 := { s with curPageNo := p.nextPage, curDirtyFlag := false,
                                 curPinned := true }
              match nextOcc p2.slots (-1) 0 with
              | none => scanNext fuel s2
              | some jr2 =>
                scanCheck (scanNext fuel) p2 { s2 with curRec := ⟨p2.pageNo, (jr2.1 : Int)⟩ }
    if s0.curPinned then advance s0
    else if s0.fs.hdr.firstPage = -1 then some (Status.NORECORDS, NULLRID, s0)
    else
      match lookupPage s0.fs.pages s0.fs.hdr.firstPage with
      | none => some (Status.UNIXERR, NULLRID, s0)
      | some p =>
        let s1 := { s0 with curPinned := true, curPageNo := s0.fs.hdr.firstPage,
                            curDirtyFlag := false }
        match nextOcc p.slots (-1) 0 with
        | none => scanNext fuel s1
        | some jr => advance { s1 with curRec := ⟨p.pageNo, (jr.1 : Int)⟩ }

/-- HeapFileScan::markScan (lines 262-268): snapshot the cursor. -/
def markScan (s : HFS) : HFS :=
  { s with markedPageNo := s.curPageNo, markedRec := s.curRec }

/-- HeapFileScan::resetScan (lines 270-290): when the marked page differs
from the current page, unpin the current page, restore curPageNo and
curRec and pin the marked page (clean); otherwise only restore curRec.
The failing readPage leaves the handle without a pinned current page. -/
def resetScan (s : HFS) : Status × HFS :=
  if s.markedPageNo ≠ s.curPageNo then
    match lookupPage s.fs.pages s.markedPageNo with
    | none =>
      (Status.UNIXERR,
       { s with curPinned := false, curPageNo := s.markedPageNo, curRec := s.markedRec })
    | some _ =>
      (Status.OK,
       { s with curPinned := true, curPageNo := s.markedPageNo, curRec := s.markedRec,
                curDirtyFlag := false })
  else (Status.OK, { s with curRec := s.markedRec })

/-- HeapFileScan::deleteRecord (lines 387-399): asks the page to free the
slot of curRec, then unconditionally sets curDirtyFlag, decrements the
header record count, sets hdrDirtyFlag, and returns the page-level
status verbatim.  The source dereferences curPage without a null check;
the unpinned case is modelled as the page-level call failing. -/
def hfsDeleteRecord (s : HFS) : Status × HFS :=
  let pres : Status × FileState :=
    match lookupPage s.fs.pages s.curPageNo with
    | some p =>
      let dr := pageDeleteRecord p s.curRec
      (dr.1, { s.fs with pages := updatePage s.fs.pages s.curPageNo dr.2 })
    | none => (Status.UNIXERR, s.fs)
  (pres.1,
   { s with fs := { pres.2 with hdr := { pres.2.hdr with recCnt := pres.2.hdr.recCnt - 1 } },
            curDirtyFlag := true, hdrDirtyFlag := true })

/-- InsertFileScan::insertRecord (heapfile.C lines 484-569).  The final
list records the unPinPage calls the operation issues, as pairs of the
page number and the dirty flag passed.  When no page is pinned: an empty
file gets a fresh first page, otherwise lastPage is pinned clean.  The
record is then inserted on the current page; on NOSPACE a new page is
allocated and initialised, the current page is linked to it by
setNextPage, the header lastPage and pageCnt are updated, the old page
is unpinned with the unchanged curDirtyFlag, the new page becomes
current and the insert is retried. -/
def insertRecord (s0 : HFS) (rec : Record) : Status × RID × HFS × List (Int × Bool) :=
  let stage1 : Status ⊕ HFS :=
    if s0.curPinned then Sum.inr s0
    else if s0.fs.hdr.lastPage = -1 then
      -- file is empty: allocate and initialise the first data page
      let n := s0.fs.nextAlloc
      let fs := { s0.fs with
                    nextAlloc := n + 1,
                    pages := (n, initPage n) :: s0.fs.pages,
                    hdr := { s0.fs.hdr with firstPage := n, lastPage := n, pageCnt := 1 } }
      Sum.inr { s0 with fs := fs, curPinned := true, curPageNo := n,
                        curDirtyFlag := true, hdrDirtyFlag := true }
    else
      match lookupPage s0.fs.pages s0.fs.hdr.lastPage with
      | none => Sum.inl Status.UNIXERR
      | some _ =>
        Sum.inr { s0 with curPinned := true, curPageNo := s0.fs.hdr.lastPage,
                          curDirtyFlag := false }
  match stage1 with
  | Sum.inl st => (st, NULLRID, s0, [])
  | Sum.inr s =>
    match lookupPage s.fs.pages s.curPageNo with
    | none => (Status.UNIXERR, NULLRID, s, [])
    | some p =>
      let ins := pageInsertRecord p rec
      if ins.1 = Status.OK then
        let fs := { s.fs with
                      pages := updatePage s.fs.pages s.curPageNo ins.2.1,
                      hdr := { s.fs.hdr with recCnt := s.fs.hdr.recCnt + 1 } }
        (Status.OK, ins.2.2, { s with fs := fs, hdrDirtyFlag := true, curDirtyFlag := true }, [])
      else if ins.1 ≠ Status.NOSPACE then (ins.1, NULLRID, s, [])
      else
        -- the current page is full: extend the chain
        let n := s.fs.nextAlloc
        let fs1 := { s.fs with
                       nextAlloc := n + 1,
                       pages := updatePage ((n, initPage n) :: s.fs.pages) s.curPageNo
                                  { p with nextPage := n },
                       hdr := { s.fs.hdr with lastPage := n, pageCnt := s.fs.hdr.pageCnt + 1 } }
        -- the old page is unpinned with curDirtyFlag as it stands
        let log := [(s.curPageNo, s.curDirtyFlag)]
        let s1 := { s with fs := fs1, curPageNo := n, curPinned := true,
                           curDirtyFlag := true, hdrDirtyFlag := true }
        match lookupPage s1.fs.pages n with
        | none => (Status.UNIXERR, NULLRID, s1, log)
        | some np =>
          let ins2 := pageInsertRecord np rec
          if ins2.1 = Status.OK then
            let fs2 := { s1.fs with
                           pages := updatePage s1.fs.pages n ins2.2.1,
                           hdr := { s1.fs.hdr with recCnt := s1.fs.hdr.recCnt + 1 } }
            (Status.OK, ins2.2.2, { s1 with fs := fs2, hdrDirtyFlag := true }, log)
          else (ins2.1, NULLRID, s1, log)

/-- createHeapFile (heapfile.C lines 5-58), abstracted over the outcomes
of the external calls it makes; the result pairs the returned status
with the pages the routine still holds pinned when it returns (the
header page is page 0 and the first data page is page 1 of the fresh
file).  Unpin calls of the routine are modelled as succeeding; the file
and page contents play no part in the pin-balance claim and are not
tracked here. -/
structure CreateOracle where
  probeOpenOK : Bool
  createSt : Status
  reopenSt : Status
  allocHdrSt : Status
  allocDataSt : Status
  deriving DecidableEq, Repr

def createHeapFile (o : CreateOracle) : Status × List Int :=
  if o.probeOpenOK then (Status.FILEEXISTS, [])
  else if o.createSt ≠ Status.OK then (o.createSt, [])
  else if o.reopenSt ≠ Status.OK then (o.reopenSt, [])
  else if o.allocHdrSt ≠ Status.OK then (o.allocHdrSt, [])
  else if o.allocDataSt ≠ Status.OK then
    -- early return at line 37: the header page allocated at line 28 is
    -- still pinned and no unpin is issued
    (o.allocDataSt, [0])
  else (Status.OK, [])

/-! ## The page chain and the header invariant -/

/-- The data pages reachable from page n by following nextPage until -1,
with fuel against a cyclic chain (none: fuel ran out or a page on the
chain does not exist). -/
def pagesChain (fs : FileState) : Nat → Int → Option (List DataPage)
  | 0, _ => none
  | Nat.succ fuel, n =>
    if n = -1 then some []
    else
      match lookupPage fs.pages n with
      | none => none
      | some p => (pagesChain fs fuel p.nextPage).map (fun t => p :: t)

/-- Live records on a page. -/
def liveCnt (p : DataPage) : Nat := (p.slots.filter Option.isSome).length

/-- The header consistency invariant of the spec, section 3: following
nextPage from firstPage reaches lastPage in exactly pageCnt hops, the
terminal page has next pointer -1 (built into pagesChain), and recCnt is
the total live slot count over those pages. -/
def hdrConsistent (fs : FileState) (fuel : Nat) : Bool :=
  match pagesChain fs fuel fs.hdr.firstPage with
  | none => false
  | some l =>
    decide ((l.length : Int) = fs.hdr.pageCnt) &&
    (match l.getLast? with
     | none => decide (fs.hdr.lastPage = -1)
     | some t => decide (t.pageNo = fs.hdr.lastPage)) &&
    decide (((l.foldr (fun p a => liveCnt p + a) 0 : Nat) : Int) = fs.hdr.recCnt)

/-! ## Scan bookkeeping lemmas -/

/-- scanNext is read-only on the file and never touches the filter, the
mark or the header dirty flag: it only moves the cursor. -/
lemma scanNext_pres : ∀ (fuel : Nat) (s : HFS) (x : Status × RID × HFS),
    scanNext fuel s = some x →
    x.2.2.fs = s.fs ∧ x.2.2.filter = s.filter ∧ x.2.2.markedPageNo = s.markedPageNo ∧
    x.2.2.markedRec = s.markedRec ∧ x.2.2.hdrDirtyFlag = s.hdrDirtyFlag := by
  intro fuel
  induction fuel with
  | zero =>
    intro s x h
    simp [scanNext] at h
  | succ n ih =>
    intro s x h
    simp only [scanNext, scanCheck] at h
    repeat' split at h
    all_goals first
      | (cases h; exact ⟨rfl, rfl, rfl, rfl, rfl⟩)
      | (have hh := ih _ _ h; exact hh)

/-! ## The expected output of a filtered scan -/

/-- The record identifiers a correct filtered scan should produce from a
slot list: occupied slots with index above the threshold k (the slot of
the current record), in index order, whose record satisfies the filter;
i is the absolute index of the first listed slot. -/
def ridsFrom (filt : Option Filter) (pn : Int) : List (Option Record) → Int → Nat → List RID
  | [], _, _ => []
  | none :: rest, k, i => ridsFrom filt pn rest k (i + 1)
  | some r :: rest, k, i =>
    if k < (i : Int) then
      (if matchRec filt r then [⟨pn, (i : Int)⟩] else []) ++ ridsFrom filt pn rest k (i + 1)
    else ridsFrom filt pn rest k (i + 1)

/-- The expected output over a chain suffix: the matching records of the
first page above slot threshold k, then every matching record of the
later pages. -/
def expectedOf (filt : Option Filter) : Int → List DataPage → List RID
  | _, [] => []
  | k, p :: rest => ridsFrom filt p.pageNo p.slots k 0 ++ expectedOf filt (-1) rest

/-- Fuel bound for a chain suffix: slots plus one hop per page. -/
def chainWork : List DataPage → Nat
  | [] => 0
  | p :: rest => p.slots.length + 1 + chainWork rest

/-- Fuel bound for a scan positioned on page p at slot threshold k with
the pages of rest still to visit. -/
def workOf (p : DataPage) (k : Int) (rest : List DataPage) : Nat :=
  (p.slots.length - (k + 1).toNat) + 1 + chainWork rest

/-! ## nextOcc and ridsFrom lemmas -/

lemma nextOcc_ge : ∀ (slots : List (Option Record)) (k : Int) (i j : Nat) (r : Record),
    nextOcc slots k i = some (j, r) → i ≤ j := by
  intro slots
  induction slots with
  | nil => intro k i j r h; simp [nextOcc] at h
  | cons hd tl ih =>
    intro k i j r h
    cases hd with
    | none =>
      have := ih k (i + 1) j r h
      omega
    | some r0 =>
      simp only [nextOcc] at h
      split at h
      · cases h; omega
      · have := ih k (i + 1) j r h
        omega

lemma nextOcc_gt_k : ∀ (slots : List (Option Record)) (k : Int) (i j : Nat) (r : Record),
    nextOcc slots k i = some (j, r) → k < (j : Int) := by
  intro slots
  induction slots with
  | nil => intro k i j r h; simp [nextOcc] at h
  | cons hd tl ih =>
    intro k i j r h
    cases hd with
    | none => exact ih k (i + 1) j r h
    | some r0 =>
      simp only [nextOcc] at h
      split at h
      · cases h; omega
      · exact ih k (i + 1) j r h

lemma nextOcc_get : ∀ (slots : List (Option Record)) (k : Int) (i j : Nat) (r : Record),
    nextOcc slots k i = some (j, r) → slots.get? (j - i) = some (some r) := by
  intro slots
  induction slots with
  | nil => intro k i j r h; simp [nextOcc] at h
  | cons hd tl ih =>
    intro k i j r h
    cases hd with
    | none =>
      have hge := nextOcc_ge tl k (i + 1) j r h
      have := ih k (i + 1) j r h
      have hj : j - i = (j - (i + 1)) + 1 := by omega
      rw [hj]
      simpa using this
    | some r0 =>
      simp only [nextOcc] at h
      split at h
      · cases h
        simp
      · have hge := nextOcc_ge tl k (i + 1) j r h
        have := ih k (i + 1) j r h
        have hj : j - i = (j - (i + 1)) + 1 := by omega
        rw [hj]
        simpa using this

lemma nextOcc_lt_length : ∀ (slots : List (Option Record)) (k : Int) (j : Nat) (r : Record),
    nextOcc slots k 0 = some (j, r) → j < slots.length := by
  intro slots k j r h
  have hg := nextOcc_get slots k 0 j r h
  simp only [Nat.sub_zero] at hg
  exact List.get?_eq_some.mp hg |>.1

/-- If no slot is occupied above threshold -1 (no slot at all), then none
is occupied above any threshold. -/
lemma nextOcc_none_any : ∀ (slots : List (Option Record)) (i : Nat) (k : Int),
    nextOcc slots (-1) i = none → nextOcc slots k i = none := by
  intro slots
  induction slots with
  | nil => intro i k _; rfl
  | cons hd tl ih =>
    intro i k h
    cases hd with
    | none => exact ih (i + 1) k h
    | some r0 =>
      exfalso
      simp only [nextOcc] at h
      rw [if_pos (by omega)] at h
      cases h

/-- No occupied slot above the threshold: the expected list is empty. -/
lemma ridsFrom_none (filt : Option Filter) (pn : Int) :
    ∀ (slots : List (Option Record)) (k : Int) (i : Nat),
    nextOcc slots k i = none → ridsFrom filt pn slots k i = [] := by
  intro slots
  induction slots with
  | nil => intro k i _; rfl
  | cons hd tl ih =>
    intro k i h
    cases hd with
    | none => exact ih k (i + 1) h
    | some r0 =>
      simp only [nextOcc] at h
      simp only [ridsFrom]
      split at h
      · cases h
      next hki =>
        rw [if_neg hki]
        exact ih k (i + 1) h

/-- Two thresholds below every remaining index give the same expected
list. -/
lemma ridsFrom_congr (filt : Option Filter) (pn : Int) :
    ∀ (slots : List (Option Record)) (k k2 : Int) (i : Nat),
    k < (i : Int) → k2 < (i : Int) →
    ridsFrom filt pn slots k i = ridsFrom filt pn slots k2 i := by
  intro slots
  induction slots with
  | nil => intro k k2 i _ _; rfl
  | cons hd tl ih =>
    intro k k2 i hk hk2
    cases hd with
    | none =>
      simp only [ridsFrom]
      exact ih k k2 (i + 1) (by omega) (by omega)
    | some r0 =>
      simp only [ridsFrom]
      rw [if_pos hk, if_pos hk2]
      rw [ih k k2 (i + 1) (by omega) (by omega)]

/-- Peeling the first occupied slot above the threshold off the expected
list: it contributes its identifier when it matches, and the rest of the
expected list is the one with the threshold moved to it. -/
lemma ridsFrom_peel (filt : Option Filter) (pn : Int) :
    ∀ (slots : List (Option Record)) (k : Int) (i j : Nat) (r : Record),
    nextOcc slots k i = some (j, r) →
    ridsFrom filt pn slots k i =
      (if matchRec filt r then [⟨pn, (j : Int)⟩] else []) ++ ridsFrom filt pn slots (j : Int) i := by
  intro slots
  induction slots with
  | nil => intro k i j r h; simp [nextOcc] at h
  | cons hd tl ih =>
    intro k i j r h
    cases hd with
    | none =>
      simp only [ridsFrom]
      exact ih k (i + 1) j r h
    | some r0 =>
      simp only [nextOcc] at h
      simp only [ridsFrom]
      split at h
      next hki =>
        cases h
        rw [if_pos hki, if_neg (show ¬((i : Int) < (i : Int)) by omega),
            ridsFrom_congr filt pn tl k (i : Int) (i + 1) (by omega) (by omega)]
      next hki =>
        have hge := nextOcc_ge tl k (i + 1) j r h
        rw [if_neg hki, if_neg (show ¬((j : Int) < (i : Int)) by omega)]
        exact ih k (i + 1) j r h

set_option maxHeartbeats 2000000

/-- The behaviour of one scanNext call seen from its expected remaining
output E: on empty E it reports FILE_EOF; otherwise it returns the head
of E and lands on it, with the tail of E the new remaining expected
output and a work measure strictly below w. -/
def SimAt (fs : FileState) (filt : Option Filter) (res : Option (Status × RID × HFS))
    (E : List RID) (w : Nat) : Prop :=
  (E = [] → ∃ s2, res = some (Status.FILEEOF, NULLRID, s2)) ∧
  (∀ (r : RID) (t : List RID), E = r :: t →
     ∃ (s2 : HFS) (p2 : DataPage) (rest2 : List DataPage) (N2 : Nat),
       res = some (Status.OK, r, s2) ∧
       s2.fs = fs ∧ s2.filter = filt ∧ s2.curPinned = true ∧
       s2.curRec = r ∧ -1 ≤ r.slotNo ∧ s2.curPageNo = r.pageNo ∧
       pagesChain fs N2 s2.curPageNo = some (p2 :: rest2) ∧
       expectedOf filt r.slotNo (p2 :: rest2) = t ∧
       workOf p2 r.slotNo rest2 < w)

/-- The scan-position invariant the simulation threads through. -/
def SimHyp (fs : FileState) (filt : Option Filter) (fuel : Nat) (s : HFS)
    (p : DataPage) (rest : List DataPage) (N : Nat) : Prop :=
  s.fs = fs ∧ s.filter = filt ∧ s.curPinned = true ∧ -1 ≤ s.curRec.slotNo ∧
  pagesChain fs N s.curPageNo = some (p :: rest) ∧
  workOf p s.curRec.slotNo rest + 1 ≤ fuel

/-- The filter step lands on slot j of page q (holding r0): if the record
matches it is returned, otherwise the scan continues and yields whatever
the remaining expected output demands. -/
lemma check_sim (fs : FileState) (filt : Option Filter)
    (hwf : ∀ (nn : Int) (pp : DataPage), lookupPage fs.pages nn = some pp → pp.pageNo = nn)
    (n : Nat)
    (ih : ∀ (s : HFS) (p : DataPage) (rest : List DataPage) (N : Nat),
       SimHyp fs filt n s p rest N →
       SimAt fs filt (scanNext n s)
         (expectedOf filt s.curRec.slotNo (p :: rest)) (workOf p s.curRec.slotNo rest))
    (s1 : HFS) (q : DataPage) (rest1 : List DataPage) (N : Nat) (j : Nat) (r0 : Record)
    (w : Nat)
    (hfs : s1.fs = fs) (hfilt : s1.filter = filt) (hpin : s1.curPinned = true)
    (hrec : s1.curRec = ⟨q.pageNo, (j : Int)⟩)
    (hlook : lookupPage fs.pages s1.curPageNo = some q)
    (hchain : pagesChain fs N s1.curPageNo = some (q :: rest1))
    (hget : q.slots.get? j = some (some r0))
    (hw : workOf q (j : Int) rest1 < w)
    (hfuel : workOf q (j : Int) rest1 + 1 ≤ n) :
    SimAt fs filt (scanCheck (scanNext n) q s1)
      ((if matchRec filt r0 then [⟨q.pageNo, (j : Int)⟩] else []) ++
        expectedOf filt (j : Int) (q :: rest1)) w := by
  have hpn : q.pageNo = s1.curPageNo := hwf _ _ hlook
  have hpg : pageGetRecord q s1.curRec = some r0 := by
    rw [hrec]
    simp only [pageGetRecord]
    rw [if_neg (by omega), Int.toNat_natCast, hget]
  have hslot : -1 ≤ ((⟨q.pageNo, (j : Int)⟩ : RID)).slotNo := by
    show (-1 : Int) ≤ (j : Int)
    omega
  cases filt with
  | none =>
    have hres : scanCheck (scanNext n) q s1 = some (Status.OK, s1.curRec, s1) := by
      simp only [scanCheck, hfilt]
    constructor
    · intro hE
      have hE2 : (⟨q.pageNo, (j : Int)⟩ : RID) :: expectedOf none (j : Int) (q :: rest1) =
          ([] : List RID) := hE
      cases hE2
    · intro r t hE
      have hE2 : (⟨q.pageNo, (j : Int)⟩ : RID) :: expectedOf none (j : Int) (q :: rest1) =
          r :: t := hE
      cases hE2
      exact ⟨s1, q, rest1, N, by rw [hres, hrec], hfs, hfilt, hpin, hrec,
        hslot, hpn.symm, hchain, rfl, hw⟩
  | some f =>
    cases hm : matchRec (some f) r0 with
    | true =>
      have hres : scanCheck (scanNext n) q s1 = some (Status.OK, s1.curRec, s1) := by
        simp only [scanCheck, hfilt, hpg, hm]
        simp
      constructor
      · intro hE
        rw [if_pos rfl] at hE
        cases hE
      · intro r t hE
        rw [if_pos rfl, List.singleton_append] at hE
        cases hE
        exact ⟨s1, q, rest1, N, by rw [hres, hrec], hfs, hfilt, hpin, hrec,
          hslot, hpn.symm, hchain, rfl, hw⟩
    | false =>
      have hres : scanCheck (scanNext n) q s1 = scanNext n s1 := by
        simp only [scanCheck, hfilt, hpg, hm]
        simp
      have hihc := ih s1 q rest1 N
        ⟨hfs, hfilt, hpin, by rw [hrec]; exact hslot, hchain, by rw [hrec]; exact hfuel⟩
      rw [hrec] at hihc
      dsimp only at hihc
      constructor
      · intro hE
        rw [if_neg Bool.false_ne_true, List.nil_append] at hE
        obtain ⟨s2, hs2⟩ := hihc.1 hE
        exact ⟨s2, by rw [hres, hs2]⟩
      · intro r t hE
        rw [if_neg Bool.false_ne_true, List.nil_append] at hE
        obtain ⟨s2, p2, rest2, N2, hr1, hr2, hr3, hr4, hr5, hr6, hr7, hr8, hr9, hr10⟩ :=
          hihc.2 r t hE
        exact ⟨s2, p2, rest2, N2, by rw [hres, hr1], hr2, hr3, hr4, hr5, hr6, hr7, hr8, hr9,
          by omega⟩

/-- Weakening the work bound of SimAt. -/
lemma SimAt_mono (fs : FileState) (filt : Option Filter) (res : Option (Status × RID × HFS))
    (E : List RID) (w1 w2 : Nat) (h : SimAt fs filt res E w1) (hw : w1 ≤ w2) :
    SimAt fs filt res E w2 := by
  refine ⟨h.1, ?_⟩
  intro r t hE
  obtain ⟨s2, p2, rest2, N2, h1, h2, h3, h4, h5, h6, h7, h8, h9, h10⟩ := h.2 r t hE
  exact ⟨s2, p2, rest2, N2, h1, h2, h3, h4, h5, h6, h7, h8, h9, by omega⟩

/-- The scan simulation: from any pinned position on a wellformed chain,
scanNext behaves as SimAt prescribes for the expected remaining
output. -/
lemma scan_sim (fs : FileState) (filt : Option Filter)
    (hwf : ∀ (nn : Int) (pp : DataPage), lookupPage fs.pages nn = some pp → pp.pageNo = nn) :
    ∀ (fuel : Nat) (s : HFS) (p : DataPage) (rest : List DataPage) (N : Nat),
    SimHyp fs filt fuel s p rest N →
    SimAt fs filt (scanNext fuel s)
      (expectedOf filt s.curRec.slotNo (p :: rest)) (workOf p s.curRec.slotNo rest) := by
  intro fuel
  induction fuel with
  | zero =>
    intro s p rest N h
    obtain ⟨_, _, _, _, _, hfuel⟩ := h
    omega
  | succ n ih =>
    intro s p rest N h
    obtain ⟨hfs, hfilt, hpin, hk, hchain0, hfuel⟩ := h
    have hchain := hchain0
    cases N with
    | zero => simp [pagesChain] at hchain
    | succ N1 =>
      simp only [pagesChain] at hchain
      by_cases hng : s.curPageNo = -1
      · rw [if_pos hng] at hchain
        simp at hchain
      · rw [if_neg hng] at hchain
        cases hlk : lookupPage fs.pages s.curPageNo with
        | none => rw [hlk] at hchain; simp at hchain
        | some p0 =>
          rw [hlk] at hchain
          change Option.map (fun t => p0 :: t) (pagesChain fs N1 p0.nextPage) =
            some (p :: rest) at hchain
          cases hch2 : pagesChain fs N1 p0.nextPage with
          | none => rw [hch2] at hchain; simp at hchain
          | some l =>
            rw [hch2] at hchain
            simp only [Option.map_some', Option.some.injEq, List.cons.injEq] at hchain
            obtain ⟨hp0, hl⟩ := hchain
            rw [hp0] at hlk
            rw [hp0, hl] at hch2
            -- now: hlk : lookup (s.curPageNo) = some p, hch2 : pagesChain fs N1 p.nextPage = some rest
            cases ho : nextOcc p.slots s.curRec.slotNo 0 with
            | some jr =>
              obtain ⟨j, r0⟩ := jr
              have hsn : scanNext (n + 1) s =
                  scanCheck (scanNext n) p { s with curRec := ⟨p.pageNo, (j : Int)⟩ } := by
                simp only [scanNext]
                rw [hpin, if_pos rfl, hfs, hlk]
                dsimp only
                rw [ho]
              have hj1 := nextOcc_gt_k p.slots s.curRec.slotNo 0 j r0 ho
              have hj2 := nextOcc_lt_length p.slots s.curRec.slotNo j r0 ho
              have hjget := nextOcc_get p.slots s.curRec.slotNo 0 j r0 ho
              simp only [Nat.sub_zero] at hjget
              have hpeel := ridsFrom_peel filt p.pageNo p.slots s.curRec.slotNo 0 j r0 ho
              have hEeq : expectedOf filt s.curRec.slotNo (p :: rest) =
                  (if matchRec filt r0 then [⟨p.pageNo, (j : Int)⟩] else []) ++
                    expectedOf filt (j : Int) (p :: rest) := by
                simp only [expectedOf]
                rw [hpeel, List.append_assoc]
              rw [hsn, hEeq]
              have hw : workOf p (j : Int) rest < workOf p s.curRec.slotNo rest := by
                simp only [workOf]
                omega
              exact check_sim fs filt hwf n ih _ p rest (N1 + 1) j r0 _
                hfs hfilt hpin rfl hlk hchain0 hjget hw (by omega)
            | none =>
              have hrids : ridsFrom filt p.pageNo p.slots s.curRec.slotNo 0 = [] :=
                ridsFrom_none filt p.pageNo p.slots s.curRec.slotNo 0 ho
              by_cases hnp : p.nextPage = -1
              · -- terminal page: rest is empty and the scan reports FILE_EOF
                rw [hnp] at hch2
                cases N1 with
                | zero => simp [pagesChain] at hch2
                | succ N2 =>
                  simp only [pagesChain, if_pos rfl] at hch2
                  have hrest : rest = [] := by
                    cases hch2
                    rfl
                  subst hrest
                  have hsn : scanNext (n + 1) s = some (Status.FILEEOF, NULLRID, s) := by
                    simp only [scanNext]
                    rw [hpin, if_pos rfl, hfs, hlk]
                    dsimp only
                    rw [ho, if_pos hnp]
                  rw [hsn]
                  constructor
                  · intro _
                    exact ⟨s, rfl⟩
                  · intro r t hE
                    rw [show expectedOf filt s.curRec.slotNo [p] =
                        ridsFrom filt p.pageNo p.slots s.curRec.slotNo 0 ++ [] from rfl,
                      hrids] at hE
                    cases hE
              · -- the chain continues
                cases N1 with
                | zero => simp [pagesChain] at hch2
                | succ N2 =>
                  have hch2b := hch2
                  simp only [pagesChain] at hch2b
                  rw [if_neg hnp] at hch2b
                  cases hlk2 : lookupPage fs.pages p.nextPage with
                  | none => rw [hlk2] at hch2b; simp at hch2b
                  | some p2 =>
                    rw [hlk2] at hch2b
                    change Option.map (fun t => p2 :: t) (pagesChain fs N2 p2.nextPage) =
                      some rest at hch2b
                    cases hch3 : pagesChain fs N2 p2.nextPage with
                    | none => rw [hch3] at hch2b; simp at hch2b
                    | some l2 =>
                      rw [hch3] at hch2b
                      simp only [Option.map_some', Option.some.injEq] at hch2b
                      subst hch2b
                      have hchainNext : pagesChain fs (N2 + 1) p.nextPage = some (p2 :: l2) := by
                        simp only [pagesChain]
                        rw [if_neg hnp, hlk2]
                        dsimp only
                        rw [hch3]
                        rfl
                      have hcw : chainWork (p2 :: l2) = p2.slots.length + 1 + chainWork l2 := rfl
                      cases ho2 : nextOcc p2.slots (-1) 0 with
                      | none =>
                        -- empty next page: the scan recurses with the stale curRec
                        have hsn : scanNext (n + 1) s =
                            scanNext n { s with curPageNo := p.nextPage, curDirtyFlag := false,
                                                curPinned := true } := by
                          simp only [scanNext]
                          rw [hpin, if_pos rfl, hfs, hlk]
                          dsimp only
                          rw [ho, if_neg hnp, hlk2]
                          dsimp only
                          rw [ho2]
                        have hih := ih
                          { s with curPageNo := p.nextPage, curDirtyFlag := false,
                                   curPinned := true } p2 l2 (N2 + 1)
                          ⟨hfs, hfilt, rfl, hk, hchainNext, by
                            simp only [workOf, hcw] at hfuel ⊢
                            omega⟩
                        have hr1 : ridsFrom filt p2.pageNo p2.slots (-1) 0 = [] :=
                          ridsFrom_none filt p2.pageNo p2.slots (-1) 0 ho2
                        have hr2 : ridsFrom filt p2.pageNo p2.slots s.curRec.slotNo 0 = [] :=
                          ridsFrom_none filt p2.pageNo p2.slots s.curRec.slotNo 0
                            (nextOcc_none_any p2.slots 0 s.curRec.slotNo ho2)
                        have hEeq : expectedOf filt s.curRec.slotNo (p :: p2 :: l2) =
                            expectedOf filt s.curRec.slotNo (p2 :: l2) := by
                          simp only [expectedOf]
                          rw [hrids, hr1, hr2]
                          simp
                        dsimp only at hih
                        rw [hsn, hEeq]
                        refine SimAt_mono fs filt _ _ _ _ hih ?_
                        simp only [workOf, hcw]
                        omega
                      | some jr2 =>
                        obtain ⟨j2, r2⟩ := jr2
                        have hsn : scanNext (n + 1) s =
                            scanCheck (scanNext n) p2
                              { s with curPageNo := p.nextPage, curDirtyFlag := false,
                                       curPinned := true, curRec := ⟨p2.pageNo, (j2 : Int)⟩ } := by
                          simp only [scanNext]
                          rw [hpin, if_pos rfl, hfs, hlk]
                          dsimp only
                          rw [ho, if_neg hnp, hlk2]
                          dsimp only
                          rw [ho2]
                        have hj1 := nextOcc_gt_k p2.slots (-1) 0 j2 r2 ho2
                        have hj2 := nextOcc_lt_length p2.slots (-1) j2 r2 ho2
                        have hjget := nextOcc_get p2.slots (-1) 0 j2 r2 ho2
                        simp only [Nat.sub_zero] at hjget
                        have hpeel := ridsFrom_peel filt p2.pageNo p2.slots (-1) 0 j2 r2 ho2
                        have hEeq : expectedOf filt s.curRec.slotNo (p :: p2 :: l2) =
                            (if matchRec filt r2 then [⟨p2.pageNo, (j2 : Int)⟩] else []) ++
                              expectedOf filt (j2 : Int) (p2 :: l2) := by
                          simp only [expectedOf]
                          rw [hrids, hpeel, List.append_assoc]
                          simp
                        rw [hsn, hEeq]
                        have hw : workOf p2 (j2 : Int) l2 < workOf p s.curRec.slotNo (p2 :: l2) := by
                          simp only [workOf, hcw]
                          omega
                        exact check_sim fs filt hwf n ih _ p2 l2 (N2 + 1) j2 r2 _
                          hfs hfilt rfl rfl hlk2 hchainNext hjget hw
                          (by simp only [workOf, hcw] at hfuel ⊢; omega)

/-- A full filtered scan: repeated scanNext collecting the returned
record identifiers, ending cleanly at FILE_EOF; cnt bounds the number of
records collected, fuel is handed to each scanNext call.  none marks
fuel or count exhaustion or an error status, none of which a clean run
hits. -/
def runScan : Nat → Nat → HFS → Option (List RID)
  | 0, _, _ => none
  | Nat.succ cnt, fuel, s =>
    match scanNext fuel s with
    | none => none
    | some (Status.OK, rid, s2) => (runScan cnt fuel s2).map (fun t => rid :: t)
    | some (Status.FILEEOF, _, _) => some []
    | some _ => none

/-- The head page of a chain result is the lookup of its start. -/
lemma pagesChain_head (fs : FileState) (N : Nat) (n : Int) (p : DataPage)
    (rest : List DataPage) (h : pagesChain fs N n = some (p :: rest)) :
    lookupPage fs.pages n = some p := by
  cases N with
  | zero => simp [pagesChain] at h
  | succ N1 =>
    simp only [pagesChain] at h
    by_cases hng : n = -1
    · rw [if_pos hng] at h
      simp at h
    · rw [if_neg hng] at h
      cases hlk : lookupPage fs.pages n with
      | none => rw [hlk] at h; simp at h
      | some p0 =>
        rw [hlk] at h
        change Option.map (fun t => p0 :: t) (pagesChain fs N1 p0.nextPage) =
          some (p :: rest) at h
        cases hch : pagesChain fs N1 p0.nextPage with
        | none => rw [hch] at h; simp at h
        | some l =>
          rw [hch] at h
          simp only [Option.map_some', Option.some.injEq, List.cons.injEq] at h
          rw [h.1]

/-- The full run of a filtered scan from a pinned position produces
exactly the expected remaining output, in order. -/
lemma run_sim (fs : FileState) (filt : Option Filter)
    (hwf : ∀ (nn : Int) (pp : DataPage), lookupPage fs.pages nn = some pp → pp.pageNo = nn) :
    ∀ (cnt fuel : Nat) (s : HFS) (p : DataPage) (rest : List DataPage) (N : Nat),
    SimHyp fs filt fuel s p rest N →
    (expectedOf filt s.curRec.slotNo (p :: rest)).length < cnt →
    runScan cnt fuel s = some (expectedOf filt s.curRec.slotNo (p :: rest)) := by
  intro cnt
  induction cnt with
  | zero =>
    intro fuel s p rest N _ hlen
    omega
  | succ c ihc =>
    intro fuel s p rest N hhyp hlen
    have hsim := scan_sim fs filt hwf fuel s p rest N hhyp
    cases hE : expectedOf filt s.curRec.slotNo (p :: rest) with
    | nil =>
      obtain ⟨s2, hs2⟩ := hsim.1 hE
      simp only [runScan]
      rw [hs2]
    | cons r t =>
      obtain ⟨s2, p2, rest2, N2, h1, h2, h3, h4, h5, h6, h7, h8, h9, h10⟩ := hsim.2 r t hE
      have hfuel := hhyp.2.2.2.2.2
      have hhyp2 : SimHyp fs filt fuel s2 p2 rest2 N2 :=
        ⟨h2, h3, h4, by rw [h5]; exact h6, h8, by rw [h5]; omega⟩
      have hlen2 : (expectedOf filt s2.curRec.slotNo (p2 :: rest2)).length < c := by
        rw [h5, h9]
        have : (r :: t).length < c + 1 := by rw [← hE]; exact hlen
        simp at this
        simp [this]
      have hrun := ihc fuel s2 p2 rest2 N2 hhyp2 hlen2
      simp only [runScan]
      rw [h1]
      dsimp only
      have hrun2 : runScan c fuel s2 = some t := by
        rw [hrun, h5, h9]
      rw [hrun2, Option.map_some']

/-! ## Uniqueness of the scan output -/

lemma ridsFrom_mem (filt : Option Filter) (pn : Int) :
    ∀ (slots : List (Option Record)) (k : Int) (i : Nat) (x : RID),
    x ∈ ridsFrom filt pn slots k i → x.pageNo = pn ∧ (i : Int) ≤ x.slotNo := by
  intro slots
  induction slots with
  | nil => intro k i x hx; simp [ridsFrom] at hx
  | cons hd tl ih =>
    intro k i x hx
    cases hd with
    | none =>
      have := ih k (i + 1) x hx
      exact ⟨this.1, by omega⟩
    | some r0 =>
      simp only [ridsFrom] at hx
      split at hx
      · rcases List.mem_append.mp hx with hx1 | hx2
        · split at hx1
          · simp only [List.mem_singleton] at hx1
            subst hx1
            exact ⟨rfl, le_of_eq rfl⟩
          · simp at hx1
        · have := ih k (i + 1) x hx2
          exact ⟨this.1, by omega⟩
      · have := ih k (i + 1) x hx
        exact ⟨this.1, by omega⟩

lemma ridsFrom_pairwise (filt : Option Filter) (pn : Int) :
    ∀ (slots : List (Option Record)) (k : Int) (i : Nat),
    List.Pairwise (fun a b : RID => a.slotNo < b.slotNo) (ridsFrom filt pn slots k i) := by
  intro slots
  induction slots with
  | nil => intro k i; simp [ridsFrom]
  | cons hd tl ih =>
    intro k i
    cases hd with
    | none => exact ih k (i + 1)
    | some r0 =>
      simp only [ridsFrom]
      split
      · cases hm : matchRec filt r0 with
        | true =>
          rw [if_pos rfl, List.singleton_append]
          refine List.Pairwise.cons ?_ (ih k (i + 1))
          intro x hx
          have := (ridsFrom_mem filt pn tl k (i + 1) x hx).2
          show ((⟨pn, (i : Int)⟩ : RID)).slotNo < x.slotNo
          dsimp only
          omega
        | false =>
          rw [if_neg Bool.false_ne_true, List.nil_append]
          exact ih k (i + 1)
      · exact ih k (i + 1)

lemma expectedOf_mem (filt : Option Filter) :
    ∀ (l : List DataPage) (k : Int) (x : RID),
    x ∈ expectedOf filt k l → x.pageNo ∈ l.map DataPage.pageNo := by
  intro l
  induction l with
  | nil => intro k x hx; simp [expectedOf] at hx
  | cons p tl ih =>
    intro k x hx
    simp only [expectedOf] at hx
    rcases List.mem_append.mp hx with hx1 | hx2
    · have := (ridsFrom_mem filt p.pageNo p.slots k 0 x hx1).1
      simp [this]
    · simp [ih (-1) x hx2]

/-- Over pages with distinct page numbers the expected scan output lists
each record identifier at most once. -/
lemma expectedOf_nodup (filt : Option Filter) :
    ∀ (l : List DataPage) (k : Int),
    (l.map DataPage.pageNo).Nodup → (expectedOf filt k l).Nodup := by
  intro l
  induction l with
  | nil => intro k _; simp [expectedOf]
  | cons p tl ih =>
    intro k hnd
    simp only [List.map_cons, List.nodup_cons] at hnd
    obtain ⟨hp, htl⟩ := hnd
    simp only [expectedOf]
    refine List.Nodup.append ?_ (ih (-1) htl) ?_
    · refine List.Pairwise.imp ?_ (ridsFrom_pairwise filt p.pageNo p.slots k 0)
      intro a b hlt heq
      rw [heq] at hlt
      omega
    · intro x hx1 hx2
      have h1 := (ridsFrom_mem filt p.pageNo p.slots k 0 x hx1).1
      have h2 := expectedOf_mem filt tl (-1) x hx2
      rw [h1] at h2
      exact hp h2

/-- Wellformedness of a concrete page store: every entry carries its own
key as its page number. -/
lemma lookup_wf (ps : List (Int × DataPage)) (h : ∀ pr ∈ ps, pr.2.pageNo = pr.1) :
    ∀ (nn : Int) (pp : DataPage), lookupPage ps nn = some pp → pp.pageNo = nn := by
  induction ps with
  | nil => intro nn pp hl; simp [lookupPage] at hl
  | cons hd tl ih =>
    intro nn pp hl
    obtain ⟨m, q⟩ := hd
    simp only [lookupPage] at hl
    split at hl
    next hm =>
      injection hl with hl2
      subst hl2
      have := h (m, q) (List.mem_cons_self _ _)
      simp only at this
      rw [this]
      exact hm
    next hm =>
      exact ih (fun pr hpr => h pr (List.mem_cons_of_mem _ hpr)) nn pp hl

/-! ## C3: a fresh filtered scan enumerates exactly the matching records -/

/-- C3: a filtered scan started on a freshly opened HeapFileScan (the
constructor pins the first page, startScan installs the filter) and run
by repeated scanNext until FILE_EOF returns exactly the live records
satisfying the filter, each exactly once, in page-chain order — in
particular the first record of the first page is not skipped, because
the scan starts with curRec = NULLRID (slot -1) on the pinned first page
and the nextRecord step finds the first occupied slot. -/
theorem C3_filtered_scan_enumerates (fs : FileState) (filt : Option Filter) (s0 : HFS)
    (p : DataPage) (rest : List DataPage) (N cnt fuel : Nat)
    (hwf : ∀ (nn : Int) (pp : DataPage), lookupPage fs.pages nn = some pp → pp.pageNo = nn)
    (hne : fs.hdr.firstPage ≠ -1)
    (hopen : openScan fs filt = some s0)
    (hchain : pagesChain fs N fs.hdr.firstPage = some (p :: rest))
    (hfuel : workOf p (-1) rest + 1 ≤ fuel)
    (hcnt : (expectedOf filt (-1) (p :: rest)).length < cnt)
    (hnd : ((p :: rest).map DataPage.pageNo).Nodup) :
    runScan cnt fuel s0 = some (expectedOf filt (-1) (p :: rest)) ∧
    (expectedOf filt (-1) (p :: rest)).Nodup := by
  have hlk := pagesChain_head fs N _ p rest hchain
  unfold openScan at hopen
  rw [if_neg hne, hlk] at hopen
  simp only [Option.some.injEq] at hopen
  subst hopen
  refine ⟨?_, expectedOf_nodup filt (p :: rest) (-1) hnd⟩
  exact run_sim fs filt hwf cnt fuel _ p rest N
    ⟨rfl, rfl, rfl, by show (-1 : Int) ≤ (-1 : Int); omega, hchain, hfuel⟩ hcnt

/-- The C3 witness filter: EQ against the int 42 at offset 0. -/
def c3f : Filter := ⟨0, 4, Datatype.INTEGER, [42, 0, 0, 0], Operator.EQ⟩

/-- First page of the C3 witness file: ints 1 and 42. -/
def c3p1 : DataPage := ⟨1, [some ⟨[1, 0, 0, 0]⟩, some ⟨[42, 0, 0, 0]⟩], 2, 0⟩

/-- Second page of the C3 witness file: int 42, a freed slot, int 7. -/
def c3p2 : DataPage := ⟨2, [some ⟨[42, 0, 0, 0]⟩, none, some ⟨[7, 0, 0, 0]⟩], -1, 0⟩

/-- The C3 witness file: two pages, five slots, four live records. -/
def c3fs : FileState := ⟨[(1, c3p1), (2, c3p2)], ⟨1, 2, 2, 4⟩, 3⟩

/-- The C3 witness scan state as openScan builds it. -/
def c3s0 : HFS := ⟨c3fs, true, 1, false, false, NULLRID, some c3f, 0, NULLRID⟩

/-- Witness for C3 at a concrete two-page file and equality filter. -/
theorem C3_filtered_scan_witness :
    runScan 9 20 c3s0 = some (expectedOf (some c3f) (-1) [c3p1, c3p2]) ∧
    (expectedOf (some c3f) (-1) [c3p1, c3p2]).Nodup :=
  C3_filtered_scan_enumerates c3fs (some c3f) c3s0 c3p1 [c3p2] 3 9 20
    (lookup_wf _ (by decide)) (by decide) (by decide) (by decide) (by decide)
    (by decide) (by decide)

/-! ## Concrete fixtures -/

/-- A three-byte record. -/
def recA : Record := ⟨[1, 2, 3]⟩

/-- A two-byte record. -/
def recB : Record := ⟨[4, 5]⟩

/-- The record inserted in the failing scenarios. -/
def recNew : Record := ⟨[9, 9, 9, 9]⟩

/-- First data page of the two-page fixtures, completely full. -/
def pOneFull : DataPage := ⟨1, [some recA], 2, 0⟩

/-- First data page of the with-space fixture: room left for recNew. -/
def pOneSpace : DataPage := ⟨1, [some recA], 2, 50⟩

/-- Tail data page of the two-page fixtures. -/
def pTwoTail : DataPage := ⟨2, [some recB], -1, 50⟩

/-- A two-page heap file whose first page is full: pages 1 -> 2, header
firstPage 1, lastPage 2, pageCnt 2, recCnt 2. -/
def fsTwoFull : FileState := ⟨[(1, pOneFull), (2, pTwoTail)], ⟨1, 2, 2, 2⟩, 3⟩

/-- A two-page heap file whose first page still has free space. -/
def fsTwoSpace : FileState := ⟨[(1, pOneSpace), (2, pTwoTail)], ⟨1, 2, 2, 2⟩, 3⟩

/-! ## C1: insertion is not always into the tail page -/

/-- C1: the claim states that insertRecord always inserts into the tail
page of the chain and never inserts into (or re-links) a non-tail data
page.  The code violates this: the HeapFile constructor pins the first
data page as the current page, and insertRecord inserts into the current
page whenever one is pinned.  On a freshly opened InsertFileScan over
the two-page file fsTwoSpace (first page 1 has free space, tail page is
2), insertRecord returns OK with a record identifier on page 1, a
non-tail page. -/
theorem C1_insert_goes_to_nontail_page :
    (openScan fsTwoSpace none).map
      (fun s => ((insertRecord s recNew).1, (insertRecord s recNew).2.1.pageNo)) =
      some (Status.OK, 1) ∧
    fsTwoSpace.hdr.lastPage = 2 ∧ (1 : Int) ≠ 2 := by decide

/-! ## C2: the header invariant is broken by a successful insert -/

/-- C2: the claim states that after every successful operation the header
is consistent with the page chain (pagesChain from firstPage has length
pageCnt, ends at lastPage, and recCnt counts the live records).  On the
two-page file fsTwoFull the invariant holds, a freshly opened
InsertFileScan then runs insertRecord, the call returns OK, and the
invariant is false afterwards: the full first page was re-linked to the
new page 3, orphaning page 2, so the chain has 2 pages while pageCnt
is 3. -/
theorem C2_header_invariant_broken_by_insert :
    hdrConsistent fsTwoFull 10 = true ∧
    (openScan fsTwoFull none).map
      (fun s => ((insertRecord s recNew).1, hdrConsistent (insertRecord s recNew).2.2.1.fs 10)) =
      some (Status.OK, false) := by decide

/-! ## C4: the link write is not reflected in the unpin dirty flag -/

/-- C4: the claim states that the dirty flag passed to unPinPage is the
OR of all writes performed through the pinned pointer, in particular
that the unpin of the previous tail page on the chain-extension path
accounts for the setNextPage link write.  The code passes curDirtyFlag
without setting it first (line 552): on fsTwoFull the insert overflows
page 1, setNextPage changes its image (next pointer 2 before, 3 after),
yet the unpin log shows page 1 unpinned with dirty = false. -/
theorem C4_link_write_unpinned_clean :
    (openScan fsTwoFull none).map
      (fun s => ((insertRecord s recNew).2.2.2,
                 (lookupPage s.fs.pages 1).map DataPage.nextPage,
                 (lookupPage (insertRecord s recNew).2.2.1.fs.pages 1).map DataPage.nextPage)) =
      some ([(1, false)], some 2, some 3) := by decide

/-! ## C5: an error path of createHeapFile leaks a pin -/

/-- C5: the claim states that every pin acquired by the layer is matched
by an unpin on every path, including error paths.  In createHeapFile,
when the allocPage call for the first data page fails (line 37) after
the header page was allocated and pinned (line 28), the routine returns
the error with the header page still pinned: no unpin is issued. -/
theorem C5_createHeapFile_pin_leak :
    createHeapFile ⟨false, Status.OK, Status.OK, Status.OK, Status.UNIXERR⟩ =
      (Status.UNIXERR, [0]) ∧ ([0] : List Int) ≠ [] := by decide

/-! ## C7: scan boundary statuses -/

/-- C7: scanNext with no pinned page on a file with no data pages returns
NORECORDS, and scanNext after the scan consumed the last record of the
terminal page (no further occupied slot, next link -1) returns
FILE_EOF. -/
theorem C7_scan_boundaries :
    (∀ (fuel : Nat) (s : HFS), s.curPinned = false → s.fs.hdr.firstPage = -1 →
       scanNext (fuel + 1) s = some (Status.NORECORDS, NULLRID, s)) ∧
    (∀ (fuel : Nat) (s : HFS) (p : DataPage), s.curPinned = true →
       lookupPage s.fs.pages s.curPageNo = some p →
       nextOcc p.slots s.curRec.slotNo 0 = none → p.nextPage = -1 →
       scanNext (fuel + 1) s = some (Status.FILEEOF, NULLRID, s)) := by
  constructor
  · intro fuel s h1 h2
    simp [scanNext, h1, h2]
  · intro fuel s p h1 h2 h3 h4
    simp [scanNext, h1, h2, h3, h4]

/-- An empty-file scan state: header chain empty, nothing pinned. -/
def sEmptyFile : HFS :=
  ⟨⟨[], ⟨-1, -1, 0, 0⟩, 2⟩, false, -1, false, false, NULLRID, none, 0, NULLRID⟩

/-- A scan state positioned on the last record of the terminal page. -/
def sAtEnd : HFS :=
  ⟨⟨[(1, ⟨1, [some recA], -1, 0⟩)], ⟨1, 1, 1, 1⟩, 2⟩, true, 1, false, false,
   ⟨1, 0⟩, none, 0, NULLRID⟩

/-- Witness for C7 at concrete inputs. -/
theorem C7_scan_boundaries_witness :
    scanNext (4 + 1) sEmptyFile = some (Status.NORECORDS, NULLRID, sEmptyFile) ∧
    scanNext (4 + 1) sAtEnd = some (Status.FILEEOF, NULLRID, sAtEnd) :=
  ⟨C7_scan_boundaries.1 4 sEmptyFile rfl rfl,
   C7_scan_boundaries.2 4 sAtEnd ⟨1, [some recA], -1, 0⟩ rfl rfl rfl rfl⟩

/-! ## C8: the out-of-range guard works only without int overflow -/

/-- The validation startScan performs on an active filter (heapfile.C
lines 223-230): nonnegative offset, positive length, a known type, the
fixed 4-byte size for INTEGER and FLOAT (sizeof int and sizeof float),
and a known operator.  True means BADSCANPARM is not returned. -/
def startScanOk (f : Filter) : Bool :=
  !((decide (f.offset < 0) || decide (f.length < 1)) ||
    (decide (f.type ≠ Datatype.STRING) && decide (f.type ≠ Datatype.INTEGER) &&
      decide (f.type ≠ Datatype.FLOAT)) ||
    (decide (f.type = Datatype.INTEGER) && decide (f.length ≠ 4) ||
      decide (f.type = Datatype.FLOAT) && decide (f.length ≠ 4)) ||
    (decide (f.op ≠ Operator.LT) && decide (f.op ≠ Operator.LTE) &&
      decide (f.op ≠ Operator.EQ) && decide (f.op ≠ Operator.GTE) &&
      decide (f.op ≠ Operator.GT) && decide (f.op ≠ Operator.NE)))

/-- The C8 counterexample filter: a startScan-valid STRING filter whose
offset + length - 1 overflows 32-bit int. -/
def c8f : Filter := ⟨2147483640, 100, Datatype.STRING, [65], Operator.NE⟩

/-- The C8 counterexample record: two bytes. -/
def c8r : Record := ⟨[1, 2]⟩

/-- C8 counterexample: the claim states that whenever
offset + length > record.length the record does not match and nothing
out of bounds is read.  For the startScan-valid filter c8f the guard at
line 416 computes offset + length - 1 = 2147483739 in 32-bit int, which
wraps to the negative value -2147483557, so the comparison against
rec.length = 2 does not fire; the code then evaluates
strncmp(rec.data + offset, ...), an out-of-bounds read in C (clipped in
the model), and the record matches (true) where the claim demands
false. -/
theorem C8_guard_wrap_counterexample :
    startScanOk c8f = true ∧
    (c8r.data.length : Int) < c8f.offset + c8f.length ∧
    wrap32 (c8f.offset + c8f.length - 1) = -2147483557 ∧
    matchRec (some c8f) c8r = true := by decide

/-- C8 amended: for every record and active filter whose
offset + length - 1 does not overflow 32-bit int, if
offset + length > record.length then matchRec returns false: the bounds
guard at line 416 fires before any byte of the record is read.  (When
offset + length - 1 overflows int, the wrapped guard misfires and the
code reads the record bytes at offset, out of bounds in C, as the
counterexample shows.) -/
theorem C8_out_of_range_no_match_when_fits (f : Filter) (rec : Record)
    (hfit : f.offset + f.length - 1 < 2147483648)
    (h : (rec.data.length : Int) < f.offset + f.length) :
    matchRec (some f) rec = false := by
  simp only [matchRec]
  rw [if_pos]
  simp only [wrap32]
  omega

/-- Witness for the amended C8: a four-byte integer filter against a
two-byte record. -/
theorem C8_out_of_range_witness :
    matchRec (some ⟨0, 4, Datatype.INTEGER, [42, 0, 0, 0], Operator.EQ⟩) ⟨[42, 0]⟩ = false :=
  C8_out_of_range_no_match_when_fits _ _ (by decide) (by decide)

/-! ## C9: the numeric comparison is exact only without int overflow -/

/-- The INTEGER filter of the C9 counterexample: compare GT against the
value -2^31 (bytes 00 00 00 80). -/
def c9Filt : Filter := ⟨0, 4, Datatype.INTEGER, [0, 0, 0, 128], Operator.GT⟩

/-- The C9 counterexample record: the int 2^31 - 1 (bytes FF FF FF 7F). -/
def c9Rec : Record := ⟨[255, 255, 255, 127]⟩

/-- C9 counterexample: the claim states diff = attr - filterValue is
computed exactly as a real number for all representable values.  For
attr = 2^31 - 1 and filterValue = -2^31 the real difference is
2^32 - 1 > 0, so the claimed semantics makes GT true, but the int
subtraction in matchRec wraps to -1 and the code returns false. -/
theorem C9_exact_diff_counterexample :
    matchRec (some c9Filt) c9Rec = false ∧
    matchRecSpec c9Filt c9Rec = some true ∧
    intDiff c9Filt c9Rec = 4294967295 := by
  refine ⟨by decide, ?_, by decide⟩
  show some (opApplyQ Operator.GT (((2147483647 : Int) : ℚ) - ((-2147483648 : Int) : ℚ))) =
    some true
  simp only [opApplyQ, Option.some.injEq, decide_eq_true_eq]
  norm_num

/-- 32-bit wrap is the identity on the representable range. -/
theorem wrap32_eq_of_fits (z : Int) (h1 : -2147483648 ≤ z) (h2 : z < 2147483648) :
    wrap32 z = z := by
  unfold wrap32
  omega

/-- Comparing the rational image of an integer against zero is comparing
the integer against zero. -/
theorem opApplyQ_intCast (op : Operator) (z : Int) :
    opApplyQ op ((z : ℚ)) = opApplyZ op z := by
  cases op <;>
    simp only [opApplyQ, opApplyZ, decide_eq_decide] <;>
    exact_mod_cast Iff.rfl

/-- Scaling by a positive power of two does not change comparisons
against zero. -/
theorem opApplyQ_mul_pow (op : Operator) (z : Int) (e : Int) :
    opApplyQ op ((z : ℚ) * (2 : ℚ) ^ e) = opApplyZ op z := by
  have hp : (0 : ℚ) < (2 : ℚ) ^ e := zpow_pos (by norm_num) e
  have hlt : ((z : ℚ) * (2 : ℚ) ^ e < 0) ↔ ((z : ℚ) < 0) := by
    rw [mul_neg_iff]
    constructor
    · rintro (⟨_, h2⟩ | ⟨h1, _⟩)
      · exact absurd hp (not_lt.mpr h2.le)
      · exact h1
    · intro h
      exact Or.inr ⟨h, hp⟩
  have heq : ((z : ℚ) * (2 : ℚ) ^ e = 0) ↔ ((z : ℚ) = 0) := by
    rw [mul_eq_zero]
    simp [hp.ne.symm]
  have hle : ((z : ℚ) * (2 : ℚ) ^ e ≤ 0) ↔ ((z : ℚ) ≤ 0) := by
    rw [le_iff_lt_or_eq, le_iff_lt_or_eq, hlt, heq]
  cases op
  case LT =>
    simp only [opApplyQ, opApplyZ, decide_eq_decide]
    rw [hlt]
    exact_mod_cast Iff.rfl
  case LTE =>
    simp only [opApplyQ, opApplyZ, decide_eq_decide]
    rw [hle]
    exact_mod_cast Iff.rfl
  case EQ =>
    simp only [opApplyQ, opApplyZ, decide_eq_decide]
    rw [heq]
    exact_mod_cast Iff.rfl
  case GTE =>
    simp only [opApplyQ, opApplyZ, decide_eq_decide]
    rw [← not_lt, hlt, not_lt]
    exact_mod_cast Iff.rfl
  case GT =>
    simp only [opApplyQ, opApplyZ, decide_eq_decide]
    rw [← not_le, hle, not_le]
    exact_mod_cast Iff.rfl
  case NE =>
    simp only [opApplyQ, opApplyZ, decide_eq_decide]
    rw [not_iff_not, heq]
    exact_mod_cast Iff.rfl

/-- The exact difference of two dyadics is the dsub carrier scaled by the
common power of two. -/
theorem qval_sub (m1 e1 m2 e2 : Int) :
    qval m1 e1 - qval m2 e2 = ((dsub m1 e1 m2 e2 : Int) : ℚ) * (2 : ℚ) ^ (min e1 e2) := by
  have hne : (2 : ℚ) ≠ 0 := by norm_num
  have h1 : (2 : ℚ) ^ e1 = (2 : ℚ) ^ ((e1 - min e1 e2).toNat) * (2 : ℚ) ^ (min e1 e2) := by
    rw [← zpow_natCast (2 : ℚ) ((e1 - min e1 e2).toNat), ← zpow_add₀ hne]
    congr 1
    omega
  have h2 : (2 : ℚ) ^ e2 = (2 : ℚ) ^ ((e2 - min e1 e2).toNat) * (2 : ℚ) ^ (min e1 e2) := by
    rw [← zpow_natCast (2 : ℚ) ((e2 - min e1 e2).toNat), ← zpow_add₀ hne]
    congr 1
    omega
  unfold qval dsub
  rw [h1, h2]
  push_cast
  ring

/-- C9 amended: for every in-range record and INTEGER or FLOAT filter
(startScan forces length 4 and a nonnegative offset for these), matchRec
applies op to diff against zero where diff is the exact real difference
of the decoded attribute and filter values, PROVIDED that for INTEGER
the exact difference fits the signed 32-bit range (otherwise the int
subtraction wraps, as the counterexample shows) and for FLOAT both
operands decode to finite values. -/
theorem C9_exact_diff_amended (f : Filter) (rec : Record) (b : Bool)
    (hoff : 0 ≤ f.offset) (hlen : f.length = 4)
    (hrange : f.offset + f.length ≤ (rec.data.length : Int))
    (hfit : f.type = Datatype.INTEGER →
      -2147483648 ≤ intDiff f rec ∧ intDiff f rec < 2147483648)
    (hspec : matchRecSpec f rec = some b) :
    matchRec (some f) rec = b := by
  simp only [matchRec]
  rw [if_neg (by simp only [wrap32]; omega)]
  unfold matchRecSpec at hspec
  cases htype : f.type with
  | INTEGER =>
    rw [htype] at hspec
    obtain ⟨hf1, hf2⟩ := hfit htype
    unfold intDiff at hf1 hf2
    simp only [Option.some.injEq] at hspec
    rw [← hspec]
    show opApplyZ f.op (wrap32 (decodeI32 (attrBytes f rec) - decodeI32 (valBytes f))) = _
    rw [wrap32_eq_of_fits _ hf1 hf2, ← opApplyQ_intCast]
    congr 1
    push_cast
    ring
  | FLOAT =>
    cases ha : decodeF32 (attrBytes f rec) with
    | fin m1 e1 =>
      cases hb : decodeF32 (valBytes f) with
      | fin m2 e2 =>
        rw [htype] at hspec
        rw [ha, hb] at hspec
        simp only [Option.some.injEq] at hspec
        rw [← hspec]
        show opApplyZ f.op (dsub m1 e1 m2 e2) = _
        rw [qval_sub, opApplyQ_mul_pow]
      | inf pos =>
        rw [htype] at hspec
        rw [ha, hb] at hspec
        simp at hspec
      | nan =>
        rw [htype] at hspec
        rw [ha, hb] at hspec
        simp at hspec
    | inf pos =>
      rw [htype] at hspec
      rw [ha] at hspec
      simp at hspec
    | nan =>
      rw [htype] at hspec
      rw [ha] at hspec
      simp at hspec
  | STRING =>
    rw [htype] at hspec
    exact absurd hspec (by simp)

/-- Witness for the amended C9: an EQ comparison of the integer 5 against
itself. -/
theorem C9_exact_diff_amended_witness :
    matchRec (some ⟨0, 4, Datatype.INTEGER, [5, 0, 0, 0], Operator.EQ⟩) ⟨[5, 0, 0, 0]⟩ = true :=
  C9_exact_diff_amended _ _ true (by decide) rfl (by decide)
    (fun _ => by decide)
    (by
      show some (opApplyQ Operator.EQ (((5 : Int) : ℚ) - ((5 : Int) : ℚ))) = some true
      simp only [opApplyQ, Option.some.injEq, decide_eq_true_eq]
      norm_num)

/-! ## C10: deleteRecord bookkeeping ignores the page-level status -/

/-- C10: HeapFileScan::deleteRecord always decrements recCnt and sets
both dirty flags, whatever the page-level deleteRecord returned, and
returns that page-level status verbatim. -/
theorem C10_deleteRecord_always_decrements (s : HFS) (p : DataPage)
    (hp : lookupPage s.fs.pages s.curPageNo = some p) :
    (hfsDeleteRecord s).1 = (pageDeleteRecord p s.curRec).1 ∧
    (hfsDeleteRecord s).2.fs.hdr.recCnt = s.fs.hdr.recCnt - 1 ∧
    (hfsDeleteRecord s).2.curDirtyFlag = true ∧
    (hfsDeleteRecord s).2.hdrDirtyFlag = true := by
  simp [hfsDeleteRecord, hp]

/-- A scan state whose current record identifier names a freed slot. -/
def sBadSlot : HFS :=
  ⟨⟨[(1, ⟨1, [none, some recA], -1, 0⟩)], ⟨1, 1, 1, 1⟩, 2⟩, true, 1, false, false,
   ⟨1, 0⟩, none, 0, NULLRID⟩

/-- Witness for C10: deleting at a freed slot fails with INVALID_SLOT at
page level, and the header record count is still decremented. -/
theorem C10_deleteRecord_witness :
    (hfsDeleteRecord sBadSlot).1 = (pageDeleteRecord ⟨1, [none, some recA], -1, 0⟩ sBadSlot.curRec).1 ∧
    (hfsDeleteRecord sBadSlot).2.fs.hdr.recCnt = sBadSlot.fs.hdr.recCnt - 1 ∧
    (hfsDeleteRecord sBadSlot).2.curDirtyFlag = true ∧
    (hfsDeleteRecord sBadSlot).2.hdrDirtyFlag = true :=
  C10_deleteRecord_always_decrements sBadSlot ⟨1, [none, some recA], -1, 0⟩ rfl

/-! ## C6: mark and reset -/

/-- Iterated scanNext: n calls, threading the state (the returned status
and rid of intermediate calls are discarded, as a caller that keeps
scanning does). -/
def scanIter : Nat → Nat → HFS → Option HFS
  | 0, _, s => some s
  | Nat.succ n, fuel, s =>
    match scanNext fuel s with
    | none => none
    | some x => scanIter n fuel x.2.2

/-- Iterated scanNext preserves the store, the filter, the mark and the
header dirty flag. -/
lemma scanIter_pres : ∀ (n fuel : Nat) (s s2 : HFS), scanIter n fuel s = some s2 →
    s2.fs = s.fs ∧ s2.filter = s.filter ∧ s2.markedPageNo = s.markedPageNo ∧
    s2.markedRec = s.markedRec ∧ s2.hdrDirtyFlag = s.hdrDirtyFlag := by
  intro n
  induction n with
  | zero =>
    intro fuel s s2 h
    simp only [scanIter, Option.some.injEq] at h
    subst h
    exact ⟨rfl, rfl, rfl, rfl, rfl⟩
  | succ m ih =>
    intro fuel s s2 h
    simp only [scanIter] at h
    cases hx : scanNext fuel s with
    | none => rw [hx] at h; cases h
    | some x =>
      rw [hx] at h
      have h1 := scanNext_pres fuel s x hx
      have h2 := ih fuel x.2.2 s2 h
      exact ⟨h2.1.trans h1.1, h2.2.1.trans h1.2.1, h2.2.2.1.trans h1.2.2.1,
        h2.2.2.2.1.trans h1.2.2.2.1, h2.2.2.2.2.trans h1.2.2.2.2⟩

/-- C6: markScan followed by any number of scanNext calls followed by
resetScan restores the cursor (current page number and curRec) to the
marked position, and the next scanNext returns the same status and
record identifier as it would have directly after markScan.  Hypotheses:
the scan is positioned on a pinned page of a wellformed chain when the
mark is taken, and the iterated scan ends with a page pinned (the code
leaves a scan pinned on every non-error path). -/
theorem C6_mark_reset_roundtrip (s : HFS) (p : DataPage) (rest : List DataPage)
    (N n fuel fuel2 : Nat) (s2 : HFS)
    (hwf : ∀ (nn : Int) (pp : DataPage), lookupPage s.fs.pages nn = some pp → pp.pageNo = nn)
    (hpin : s.curPinned = true)
    (hk : -1 ≤ s.curRec.slotNo)
    (hchain : pagesChain s.fs N s.curPageNo = some (p :: rest))
    (hiter : scanIter n fuel (markScan s) = some s2)
    (hpin2 : s2.curPinned = true)
    (hfuel : workOf p s.curRec.slotNo rest + 1 ≤ fuel2) :
    (resetScan s2).1 = Status.OK ∧
    (resetScan s2).2.curPageNo = s.curPageNo ∧
    (resetScan s2).2.curRec = s.curRec ∧
    (scanNext fuel2 (resetScan s2).2).map (fun x => (x.1, x.2.1)) =
      (scanNext fuel2 (markScan s)).map (fun x => (x.1, x.2.1)) := by
  obtain ⟨hfs2, hfilt2, hmark2, hmrec2, _⟩ := scanIter_pres n fuel (markScan s) s2 hiter
  dsimp only [markScan] at hfs2 hfilt2 hmark2 hmrec2
  have hlk := pagesChain_head s.fs N _ p rest hchain
  -- the common step: any state at the marked position scans the same
  have key : ∀ (u : HFS), u.fs = s.fs → u.filter = s.filter → u.curPinned = true →
      u.curPageNo = s.curPageNo → u.curRec = s.curRec →
      (scanNext fuel2 u).map (fun x => (x.1, x.2.1)) =
        (scanNext fuel2 (markScan s)).map (fun x => (x.1, x.2.1)) := by
    intro u hufs hufilt hupin hupage hurec
    have hsimU := scan_sim s.fs s.filter hwf fuel2 u p rest N
      ⟨hufs, hufilt, hupin, by rw [hurec]; exact hk,
       by rw [hupage]; exact hchain, by rw [hurec]; exact hfuel⟩
    have hsimM := scan_sim s.fs s.filter hwf fuel2 (markScan s) p rest N
      ⟨rfl, rfl, hpin, hk, hchain, hfuel⟩
    rw [hurec] at hsimU
    cases hE : expectedOf s.filter s.curRec.slotNo (p :: rest) with
    | nil =>
      obtain ⟨a1, ha1⟩ := hsimU.1 hE
      obtain ⟨a2, ha2⟩ := hsimM.1 hE
      rw [ha1, ha2]
      rfl
    | cons r0 t0 =>
      obtain ⟨a1, _, _, _, ha1, _⟩ := hsimU.2 r0 t0 hE
      obtain ⟨a2, _, _, _, ha2, _⟩ := hsimM.2 r0 t0 hE
      rw [ha1, ha2]
      rfl
  unfold resetScan
  by_cases hcase : s2.markedPageNo = s2.curPageNo
  · rw [if_neg (by simp [hcase])]
    refine ⟨rfl, ?_, ?_, ?_⟩
    · show s2.curPageNo = s.curPageNo
      rw [← hcase, hmark2]
    · show s2.markedRec = s.curRec
      exact hmrec2
    · exact key _ hfs2 hfilt2 hpin2 (by show s2.curPageNo = s.curPageNo; rw [← hcase, hmark2])
        hmrec2
  · rw [if_pos hcase]
    rw [hfs2, hmark2, hlk]
    dsimp only
    exact ⟨rfl, rfl, hmrec2, key _ rfl hfilt2 rfl rfl hmrec2⟩

/-- The C6 witness page: three records on one page. -/
def c6p : DataPage := ⟨1, [some recA, some recB, some recNew], -1, 0⟩

/-- The C6 witness file. -/
def c6fs : FileState := ⟨[(1, c6p)], ⟨1, 1, 1, 3⟩, 2⟩

/-- The C6 witness scan state: positioned on the first record. -/
def c6s : HFS := ⟨c6fs, true, 1, false, false, ⟨1, 0⟩, none, 0, NULLRID⟩

/-- The state after markScan and two scanNext calls on c6s. -/
def c6s2 : HFS := ⟨c6fs, true, 1, false, false, ⟨1, 2⟩, none, 1, ⟨1, 0⟩⟩

/-- Witness for C6: mark at the first record, scan twice, reset; the next
scanNext returns the second record again. -/
theorem C6_mark_reset_witness :
    (resetScan c6s2).1 = Status.OK ∧
    (resetScan c6s2).2.curPageNo = c6s.curPageNo ∧
    (resetScan c6s2).2.curRec = c6s.curRec ∧
    (scanNext 10 (resetScan c6s2).2).map (fun x => (x.1, x.2.1)) =
      (scanNext 10 (markScan c6s)).map (fun x => (x.1, x.2.1)) :=
  C6_mark_reset_roundtrip c6s c6p [] 2 2 10 10 c6s2
    (lookup_wf _ (by decide)) rfl (by decide) (by decide) (by decide) rfl (by decide)

end HeapDB
